import Mathlib

/-!
Shallow embedding of the momentum-trading backtest engine
(`src/backtest/backtester.py`, `src/backtest/position_sizer.py`,
`src/backtest/realistic_backtester.py`, `src/backtest/performance.py`,
`src/signals/exit_signals.py`, `src/indicators/moving_averages.py`).

Python floats are modelled as exact rationals (ℚ), timestamps and calendar
dates as natural numbers, pandas DataFrames of OHLCV rows as `List Bar`,
and the per-symbol data dictionary as a function `String → List Bar`
(a symbol missing from the dictionary is modelled by the empty list).
Places where the Python source would raise (missing row lookups,
missing dict keys) are modelled as no-ops; no claim below depends on
those branches.
-/

namespace Momentum

/-- One OHLCV row of a symbol's price series (`timestamp, high, low, close`;
the `open` and `volume` columns are never read by the engine code embedded
here). -/
structure Bar where
  ts : Nat
  high : ℚ
  low : ℚ
  close : ℚ
deriving Repr, DecidableEq

/-- Value of `df.iloc[i]['close']` (default 0 when out of range; the source
would raise there). -/
def barClose (df : List Bar) (i : Nat) : ℚ := ((df.get? i).map Bar.close).getD 0

/-- Value of `df.iloc[i]['low']`. -/
def barLow (df : List Bar) (i : Nat) : ℚ := ((df.get? i).map Bar.low).getD 0

/-- Value of `df.iloc[i]['high']`. -/
def barHigh (df : List Bar) (i : Nat) : ℚ := ((df.get? i).map Bar.high).getD 0

/-- Model of `df[df['timestamp'] == date].index[0]` together with the row
found there: the first index whose timestamp equals `date`, or `none` when
the lookup would raise `IndexError`. -/
def findBarIdx? (df : List Bar) (date : Nat) : Option (Nat × Bar) :=
  match df.findIdx? (fun b => b.ts == date) with
  | none => none
  | some i => (df.get? i).map (fun b => (i, b))

/-- Value of `df.iloc[a:b+1]['low'].min()` (0 for an empty slice, where
pandas would give NaN; the engine only evaluates nonempty slices). -/
def windowLowMin (df : List Bar) (a b : Nat) : ℚ :=
  match ((df.drop a).take (b + 1 - a)).map Bar.low with
  | [] => 0
  | x :: xs => xs.foldl min x

/-- Value of `df.iloc[a:b+1]['high'].max()` (0 for an empty slice). -/
def windowHighMax (df : List Bar) (a b : Nat) : ℚ :=
  match ((df.drop a).take (b + 1 - a)).map Bar.high with
  | [] => 0
  | x :: xs => xs.foldl max x

/-- Result dictionary of `PositionSizer.calculate_position_size`. -/
structure SizingResult where
  position_size_usd : ℚ
  position_size_pct : ℚ
  num_contracts : ℚ
  risk_usd : ℚ
  can_open : Bool
deriving Repr, DecidableEq

/-- Embedding of `PositionSizer.calculate_position_size`
(`src/backtest/position_sizer.py`, lines 34--92).  The sizer's dataclass
fields (`account_size`, `risk_per_trade_pct`, `stop_loss_pct`,
`max_positions`, `max_position_size_pct`) are passed as leading arguments. -/
def calculate_position_size (account_size risk_per_trade_pct stop_loss_pct : ℚ)
    (max_positions : Nat) (max_position_size_pct : ℚ)
    (entry_price : ℚ) (current_positions : Nat) : SizingResult :=
  if current_positions < max_positions then
    let risk_usd := account_size * risk_per_trade_pct
    let position_size_usd := risk_usd / stop_loss_pct
    let position_size_pct := position_size_usd / account_size
    if position_size_pct > max_position_size_pct then
      let usd := account_size * max_position_size_pct
      { position_size_usd := usd
        position_size_pct := max_position_size_pct
        num_contracts := usd / entry_price
        risk_usd := usd * stop_loss_pct
        can_open := true }
    else
      { position_size_usd := position_size_usd
        position_size_pct := position_size_pct
        num_contracts := position_size_usd / entry_price
        risk_usd := risk_usd
        can_open := true }
  else
    { position_size_usd := 0, position_size_pct := 0, num_contracts := 0
      risk_usd := 0, can_open := false }

/-- An open position (`Position` dataclass, `src/backtest/backtester.py`
lines 27--43). -/
structure Position where
  symbol : String
  entry_date : Nat
  entry_index : Nat
  entry_price : ℚ
  position_size_usd : ℚ
  num_contracts : ℚ
  peak_price : ℚ
  peak_date : Nat
deriving Repr, DecidableEq

/-- Embedding of `Position.update_peak`. -/
def Position.update_peak (p : Position) (price : ℚ) (date : Nat) : Position :=
  if price > p.peak_price then { p with peak_price := price, peak_date := date } else p

/-- A completed trade (`Trade` dataclass, `src/backtest/backtester.py`
lines 46--61). -/
structure Trade where
  symbol : String
  entry_date : Nat
  entry_price : ℚ
  exit_date : Nat
  exit_price : ℚ
  position_size_usd : ℚ
  num_contracts : ℚ
  return_pct : ℚ
  return_usd : ℚ
  holding_days : Nat
  exit_reason : String
  peak_price : ℚ
  max_adverse_excursion : ℚ
deriving Repr, DecidableEq

/-- Constructor keyword arguments of the `Backtester` (`__init__`). -/
structure Config where
  initial_capital : ℚ
  risk_per_trade_pct : ℚ
  stop_loss_pct : ℚ
  max_positions : Nat
  commission_pct : ℚ
  slippage_pct : ℚ
  daily_loss_limit_pct : ℚ
  weekly_loss_limit_pct : ℚ
  max_position_size_pct : ℚ
deriving Repr, DecidableEq

/-- Mutable state of a `Backtester` instance: cash, open positions (the
`self.positions` dict, as a list keyed by symbol), the trade ledger, the
position sizer's account size, and the risk-management tracking fields. -/
structure BState where
  capital : ℚ
  positions : List Position
  trades : List Trade
  sizer_account_size : ℚ
  daily_start_capital : ℚ
  weekly_start_capital : ℚ
  current_date : Option Nat
  current_week : Option Nat
  size_multiplier : ℚ
  daily_trading_stopped : Bool
deriving Repr, DecidableEq

/-- State right after `Backtester.__init__`. -/
def initState (cfg : Config) : BState :=
  { capital := cfg.initial_capital
    positions := []
    trades := []
    sizer_account_size := cfg.initial_capital
    daily_start_capital := cfg.initial_capital
    weekly_start_capital := cfg.initial_capital
    current_date := none
    current_week := none
    size_multiplier := 1
    daily_trading_stopped := false }

/-- The `exit_details` dictionary handed to `_close_position`. -/
structure ExitDetails where
  close : ℚ
  ts : Nat
  holding_days : Nat
  exit_reason : String
deriving Repr, DecidableEq

/-- Embedding of `Backtester._open_position`
(`src/backtest/backtester.py` lines 356--402): apply slippage, size the
position from the sizer's account size, scale by the weekly size
multiplier, record the post-commission notional on the position, and debit
cash by the (scaled, pre-commission) position size. -/
def openPosition (cfg : Config) (st : BState) (symbol : String)
    (entry_date : Nat) (entry_price : ℚ) (df : List Bar) : BState :=
  let price := entry_price * (1 + cfg.slippage_pct)
  let sizing := calculate_position_size st.sizer_account_size cfg.risk_per_trade_pct
      cfg.stop_loss_pct cfg.max_positions cfg.max_position_size_pct price st.positions.length
  if sizing.can_open then
    match findBarIdx? df entry_date with
    | none => st
    | some (entry_idx, _) =>
      let size_usd := sizing.position_size_usd * st.size_multiplier
      let contracts := sizing.num_contracts * st.size_multiplier
      let commission := size_usd * cfg.commission_pct
      let net := size_usd - commission
      let pos : Position :=
        { symbol := symbol
          entry_date := entry_date
          entry_index := entry_idx
          entry_price := price
          position_size_usd := net
          num_contracts := contracts
          peak_price := price
          peak_date := entry_date }
      { st with
          positions := pos :: st.positions,
          capital := st.capital - size_usd }
  else st

/-- Embedding of `Backtester._close_position`
(`src/backtest/backtester.py` lines 404--452): apply exit slippage and
exit commission, credit cash, append the trade record (with maximum
adverse excursion over the inclusive `[entry_index, exit_idx]` window),
delete the position, and sync the sizer's account size. -/
def closePosition (cfg : Config) (st : BState) (symbol : String)
    (exit_idx : Nat) (ed : ExitDetails) (df : List Bar) : BState :=
  match st.positions.find? (fun p => p.symbol == symbol) with
  | none => st
  | some p =>
    let exit_price := ed.close * (1 - cfg.slippage_pct)
    let price_return := (exit_price - p.entry_price) / p.entry_price
    let gross_pnl := p.num_contracts * (exit_price - p.entry_price)
    let exit_commission := p.num_contracts * exit_price * cfg.commission_pct
    let net_pnl := gross_pnl - exit_commission
    let position_value := p.num_contracts * exit_price
    let newCapital := st.capital + position_value - exit_commission
    let t : Trade :=
      { symbol := symbol
        entry_date := p.entry_date
        entry_price := p.entry_price
        exit_date := ed.ts
        exit_price := exit_price
        position_size_usd := p.position_size_usd
        num_contracts := p.num_contracts
        return_pct := price_return
        return_usd := net_pnl
        holding_days := ed.holding_days
        exit_reason := ed.exit_reason
        peak_price := p.peak_price
        max_adverse_excursion :=
          (windowLowMin df p.entry_index exit_idx - p.entry_price) / p.entry_price }
    { st with
        capital := newCapital
        trades := st.trades ++ [t]
        positions := st.positions.eraseP (fun q => q.symbol == symbol)
        sizer_account_size := newCapital }

/-- Embedding of `Backtester._check_daily_loss_limit`
(`src/backtest/backtester.py` lines 134--156).  Returns the boolean the
source returns (`True` means no new positions today) together with the
updated risk-tracking state. -/
def checkDailyLossLimit (cfg : Config) (st : BState) (date : Nat) : Bool × BState :=
  let st1 :=
    if st.current_date ≠ some date then
      { st with
          current_date := some date
          daily_start_capital := st.capital
          daily_trading_stopped := false }
    else st
  if st1.daily_trading_stopped then (true, st1)
  else
    let daily_loss_pct := (st1.capital - st1.daily_start_capital) / st1.daily_start_capital
    if daily_loss_pct ≤ -cfg.daily_loss_limit_pct then
      (true, { st1 with daily_trading_stopped := true })
    else (false, st1)

/-- Embedding of `Backtester._check_weekly_loss_limit`
(`src/backtest/backtester.py` lines 158--176).  `week` is the step's ISO
week number (`current_date.isocalendar()[1]` in the source). -/
def checkWeeklyLossLimit (cfg : Config) (st : BState) (week : Nat) : BState :=
  let st1 :=
    if st.current_week ≠ some week then
      { st with
          current_week := some week
          weekly_start_capital := st.capital
          size_multiplier := 1 }
    else st
  let weekly_loss_pct := (st1.capital - st1.weekly_start_capital) / st1.weekly_start_capital
  if weekly_loss_pct ≤ -cfg.weekly_loss_limit_pct ∧ st1.size_multiplier = 1 then
    { st1 with size_multiplier := 1 / 2 }
  else st1

/-- Model of the `sma_{period}` column of `calculate_sma`
(`src/indicators/moving_averages.py` line 39, a pandas
`rolling(window=period).mean()`): defined at row `i` exactly when the row
exists and at least `period` rows precede it inclusively; `none` models
NaN. -/
def smaAt (df : List Bar) (period : Nat) (i : Nat) : Option ℚ :=
  if period ≤ i + 1 ∧ i < df.length then
    some ((((df.drop (i + 1 - period)).take period).map Bar.close).sum / (period : ℚ))
  else none

/-- Embedding of `calculate_trailing_stop` (`src/signals/exit_signals.py`
lines 20--46): stop level and whether the close is at or below it. -/
def calculate_trailing_stop (entry_price current_price peak_price trailing_stop_pct : ℚ) :
    ℚ × Bool :=
  let stop_level := peak_price * (1 - trailing_stop_pct)
  (stop_level, decide (current_price ≤ stop_level))

/-- The `exit_details` dictionary returned by `check_exit_signal`. -/
structure ExitInfo where
  exit_triggered : Bool
  exit_reason : String
  ts : Nat
  close : ℚ
  entry_price : ℚ
  peak_price : ℚ
  stop_level : ℚ
  return_pct : ℚ
  holding_days : Nat
  trailing_stop_triggered : Bool
  ma_exit_triggered : Bool
deriving Repr, DecidableEq

/-- Embedding of `check_exit_signal` (`src/signals/exit_signals.py` lines
49--143): peak is the maximum high over the inclusive window
`[entry_index, current_index]`, the trailing stop is checked against the
current close, the MA exit fires when the close is strictly below the
period SMA (when enabled and the SMA is defined), and the exit reason
gives the trailing stop priority. -/
def check_exit_signal (df : List Bar) (entry_index current_index : Nat)
    (entry_price trailing_stop_pct : ℚ) (ma_period : Nat) (use_ma_exit : Bool) :
    Bool × ExitInfo :=
  let peak_price := windowHighMax df entry_index current_index
  let current_price := barClose df current_index
  let stop := calculate_trailing_stop entry_price current_price peak_price trailing_stop_pct
  let ma_exit_triggered := use_ma_exit &&
    (match smaAt df ma_period current_index with
     | some m => decide (current_price < m)
     | none => false)
  let exit_triggered := stop.2 || (use_ma_exit && ma_exit_triggered)
  let exit_reason :=
    if stop.2 then "trailing_stop" else if ma_exit_triggered then "ma_exit" else "none"
  let info : ExitInfo :=
    { exit_triggered := exit_triggered
      exit_reason := exit_reason
      ts := ((df.get? current_index).map Bar.ts).getD 0
      close := current_price
      entry_price := entry_price
      peak_price := peak_price
      stop_level := stop.1
      return_pct := (current_price - entry_price) / entry_price
      holding_days := current_index - entry_index
      trailing_stop_triggered := stop.2
      ma_exit_triggered := ma_exit_triggered }
  (exit_triggered, info)

/-- Embedding of `Backtester._check_exits` (`src/backtest/backtester.py`
lines 262--306): for every open position whose symbol has a row at the
current date, update the peak with the row's high, query
`check_exit_signal`, then close every triggered position. -/
def checkExits (cfg : Config) (data : String → List Bar) (st : BState)
    (date : Nat) (ma_period : Nat) (use_ma_exit : Bool) : BState :=
  let posUpd := st.positions.map (fun p =>
    match findBarIdx? (data p.symbol) date with
    | none => p
    | some (i, _) => p.update_peak (barHigh (data p.symbol) i) date)
  let toClose := posUpd.filterMap (fun p =>
    match findBarIdx? (data p.symbol) date with
    | none => none
    | some (i, _) =>
      let r := check_exit_signal (data p.symbol) p.entry_index i p.entry_price
        cfg.stop_loss_pct ma_period use_ma_exit
      if r.1 then
        some (p.symbol, i,
          ({ close := r.2.close, ts := r.2.ts, holding_days := r.2.holding_days,
             exit_reason := r.2.exit_reason } : ExitDetails))
      else none)
  toClose.foldl (fun s c => closePosition cfg s c.1 c.2.1 c.2.2 (data c.1))
    { st with positions := posUpd }

/-- Embedding of `RealisticBacktester._check_universe_exits`
(`src/backtest/realistic_backtester.py` lines 305--340): every open
position whose symbol is absent from the current universe and has a row at
the current date is closed through `_close_position` with exit reason
`removed_from_universe` and `close` taken from that row. -/
def checkUniverseExits (cfg : Config) (data : String → List Bar) (st : BState)
    (date : Nat) (current_universe : List String) : BState :=
  let toClose := st.positions.filterMap (fun p =>
    if current_universe.contains p.symbol then none
    else
      match findBarIdx? (data p.symbol) date with
      | none => none
      | some (i, b) =>
        some (p.symbol, i,
          ({ close := b.close, ts := date, holding_days := i - p.entry_index,
             exit_reason := "removed_from_universe" } : ExitDetails)))
  toClose.foldl (fun s c => closePosition cfg s c.1 c.2.1 c.2.2 (data c.1)) st

/-- An entry opportunity as gathered by `_check_entries`: a symbol with
`entry_signal` true at the current date, its signal row's close, and its
`signal_strength`. -/
structure Cand where
  symbol : String
  price : ℚ
  strength : ℚ
deriving Repr, DecidableEq

/-- Stable insertion of a later-scanned candidate into a
strength-descending list: it goes after every already-placed candidate of
greater or equal strength, matching the stability of Python's
`list.sort(key=..., reverse=True)`. -/
def insertCandDesc (c : Cand) : List Cand → List Cand
  | [] => [c]
  | d :: ds => if d.strength ≤ c.strength then c :: d :: ds else d :: insertCandDesc c ds

/-- Stable sort of the opportunity list by descending `signal_strength`,
modelling `entry_opportunities.sort(key=lambda x: x['strength'],
reverse=True)`. -/
def sortStrengthDesc : List Cand → List Cand
  | [] => []
  | c :: cs => insertCandDesc c (sortStrengthDesc cs)

/-- Opportunity gathering of `_check_entries`: candidates whose symbol has
no open position, in their original scan order. -/
def gatherOpportunities (st : BState) (cands : List Cand) : List Cand :=
  cands.filter (fun c => !(st.positions.any (fun p => p.symbol == c.symbol)))

/-- Embedding of `Backtester._check_entries` (`src/backtest/backtester.py`
lines 308--354): daily loss gate, weekly loss check, capacity check, then
open the strongest `max_positions - open_count` eligible candidates in
descending strength order.  `cands` is the list of symbols with an entry
signal at `date` in the source's dict iteration order. -/
def checkEntries (cfg : Config) (st : BState) (date week : Nat)
    (cands : List Cand) (data : String → List Bar) : BState :=
  let r := checkDailyLossLimit cfg st date
  if r.1 then r.2
  else
    let st1 := checkWeeklyLossLimit cfg r.2 week
    if cfg.max_positions ≤ st1.positions.length then st1
    else
      let opps := sortStrengthDesc (gatherOpportunities st1 cands)
      let slots := cfg.max_positions - st1.positions.length
      (opps.take slots).foldl
        (fun s c => openPosition cfg s c.symbol date c.price (data c.symbol)) st1

/-- Embedding of `Backtester._close_all_positions`
(`src/backtest/backtester.py` lines 482--499): close every remaining
position at its series' last row with exit reason `end_of_backtest`. -/
def closeAllPositions (cfg : Config) (data : String → List Bar) (st : BState) : BState :=
  st.positions.foldl (fun s p =>
    let df := data p.symbol
    let last_idx := df.length - 1
    let ed : ExitDetails :=
      { close := barClose df last_idx
        ts := ((df.get? last_idx).map Bar.ts).getD 0
        holding_days := last_idx - p.entry_index
        exit_reason := "end_of_backtest" }
    closePosition cfg s p.symbol last_idx ed df) st

/-- One engine action touching the trading state, as performed by the
event loop in `Backtester.run` / `RealisticBacktester.run_realistic`:
opening a position, a peak update during `_check_exits`, closing a
position (signal, universe, or end-of-run close, distinguished only by
the `exit_details` payload), and the two risk-tracking updates. -/
inductive Ev where
  | openEv (symbol : String) (date : Nat) (price : ℚ)
  | peakEv (symbol : String) (price : ℚ) (date : Nat)
  | closeEv (symbol : String) (exit_idx : Nat) (ed : ExitDetails)
  | dailyEv (date : Nat)
  | weeklyEv (week : Nat)
deriving Repr, DecidableEq

/-- Apply one engine action to the state. -/
def applyEv (cfg : Config) (data : String → List Bar) (st : BState) : Ev → BState
  | Ev.openEv s d price => openPosition cfg st s d price (data s)
  | Ev.peakEv s price d =>
    { st with positions := st.positions.map (fun p =>
        if p.symbol == s then p.update_peak price d else p) }
  | Ev.closeEv s i ed => closePosition cfg st s i ed (data s)
  | Ev.dailyEv d => (checkDailyLossLimit cfg st d).2
  | Ev.weeklyEv w => checkWeeklyLossLimit cfg st w

/-- A backtest run: the engine actions applied in order to the freshly
initialized state. -/
def runEvents (cfg : Config) (data : String → List Bar) (evs : List Ev) : BState :=
  evs.foldl (applyEv cfg data) (initState cfg)

/-- Entry prices are positive (the price-provider contract: a signal row's
close is a positive market price). -/
def evPricePos : Ev → Bool
  | Ev.openEv _ _ price => decide (0 < price)
  | _ => true

/-- An open action's price is the close of the bar at its date, as in
`_check_entries`, which passes `signal_row['close']` for the row at the
current date. -/
def evPriceFromData (data : String → List Bar) : Ev → Bool
  | Ev.openEv s d price =>
    match findBarIdx? (data s) d with
    | some (_, b) => price == b.close
    | none => true
  | _ => true

/-- Price-provider contract used by claim C8: every row of every series
has `low ≤ close` and a positive low. -/
def DataOk (data : String → List Bar) : Prop :=
  ∀ s, ∀ b ∈ data s, b.low ≤ b.close ∧ 0 < b.low

/-- Total notional of the open positions at their entry prices,
`Σ (quantity × entry price)`. -/
def notionalSum (ps : List Position) : ℚ :=
  (ps.map (fun p => p.num_contracts * p.entry_price)).sum

/-- Total realized `return_usd` over the trade ledger. -/
def returnSum (ts : List Trade) : ℚ :=
  (ts.map Trade.return_usd).sum

/-- The conserved accounting quantity of claim C1:
`cash + Σ(open notional at entry) − Σ(trade.return_usd)`. -/
def conservedQty (st : BState) : ℚ :=
  st.capital + notionalSum st.positions - returnSum st.trades

/-- The metrics dictionary of `calculate_performance_metrics`, restricted
to the keys of `_empty_metrics` (`src/backtest/performance.py` lines
142--156).  `profit_factor = none` models `np.inf`; `none` in
`total_return`, `max_drawdown`, `sharpe_ratio` models a key the source
leaves absent (empty equity curve / empty daily returns on the non-empty
trade path). -/
structure Metrics where
  total_trades : Nat
  winning_trades : Nat
  losing_trades : Nat
  win_rate : ℚ
  avg_return_pct : ℚ
  avg_win_pct : ℚ
  avg_loss_pct : ℚ
  profit_factor : Option ℚ
  total_return : Option ℚ
  max_drawdown : Option ℚ
  sharpe_ratio : Option ℚ
deriving Repr, DecidableEq

/-- Embedding of `_empty_metrics` (`src/backtest/performance.py` lines
142--156). -/
def empty_metrics : Metrics :=
  { total_trades := 0
    winning_trades := 0
    losing_trades := 0
    win_rate := 0
    avg_return_pct := 0
    avg_win_pct := 0
    avg_loss_pct := 0
    profit_factor := some 0
    total_return := some 0
    max_drawdown := some 0
    sharpe_ratio := some 0 }

/-- Arithmetic mean of a list (`np.mean`). -/
def listMean (l : List ℚ) : ℚ := l.sum / (l.length : ℚ)

/-- Drawdown series helper: running maximum so far, emitting
`(e - runmax)/runmax` per element. -/
def ddAux (m : ℚ) : List ℚ → List ℚ
  | [] => []
  | e :: es => ((e - max m e) / max m e) :: ddAux (max m e) es

/-- The `drawdown` column `(equity - cummax)/cummax`
(`src/backtest/performance.py` lines 92--93). -/
def drawdowns : List ℚ → List ℚ
  | [] => []
  | e :: es => ddAux e (e :: es)

/-- Minimum of a list, 0 when empty (the empty case is never evaluated by
the embedded call sites). -/
def listMin : List ℚ → ℚ
  | [] => 0
  | x :: xs => xs.foldl min x

/-- Embedding of `calculate_performance_metrics`
(`src/backtest/performance.py` lines 17--139), restricted to the keys of
`Metrics`.  `sqrtQ` abstracts the numeric square root used for the
standard deviation and the `sqrt(365)` annualization; the equity curve is
its `equity` column and `daily_returns` the pct-change series. -/
def calculate_performance_metrics (sqrtQ : ℚ → ℚ) (trades : List Trade)
    (equity_curve : List ℚ) (daily_returns : List ℚ) (initial_capital : ℚ) : Metrics :=
  if trades.length = 0 then empty_metrics
  else
    let winning := trades.filter (fun t => 0 < t.return_pct)
    let losing := trades.filter (fun t => t.return_pct ≤ 0)
    let returns := trades.map Trade.return_pct
    let total_wins := (winning.map Trade.return_usd).sum
    let total_losses := |(losing.map Trade.return_usd).sum|
    let sharpeVal :=
      let mu := listMean daily_returns
      let sd := sqrtQ (((daily_returns.map (fun x => (x - mu) ^ 2)).sum) /
        ((daily_returns.length : ℚ) - 1))
      if 0 < sd then mu / sd * sqrtQ 365 else 0
    { total_trades := trades.length
      winning_trades := winning.length
      losing_trades := losing.length
      win_rate := (winning.length : ℚ) / (trades.length : ℚ)
      avg_return_pct := listMean returns
      avg_win_pct := if winning.length ≠ 0 then listMean (winning.map Trade.return_pct) else 0
      avg_loss_pct := if losing.length ≠ 0 then listMean (losing.map Trade.return_pct) else 0
      profit_factor := if 0 < total_losses then some (total_wins / total_losses) else none
      total_return :=
        if equity_curve.length ≠ 0 then
          some ((equity_curve.getLast?.getD 0) / initial_capital - 1)
        else none
      max_drawdown :=
        if equity_curve.length ≠ 0 then some (listMin (drawdowns equity_curve)) else none
      sharpe_ratio :=
        if daily_returns.length ≠ 0 then some sharpeVal else none }

/-! ## Helper lemmas -/

/-- The sizer always reports `quantity = size_usd / entry_price` (in the
rejection branch both sides are 0). -/
theorem calculate_position_size_num_contracts (a r stop : ℚ) (mp : Nat) (mpp ep : ℚ)
    (cur : Nat) :
    (calculate_position_size a r stop mp mpp ep cur).num_contracts
      = (calculate_position_size a r stop mp mpp ep cur).position_size_usd / ep := by
  simp only [calculate_position_size]
  split_ifs <;> simp

/-! ## Claims -/

/-- C3: `PositionSizer.calculate_position_size` with
`current_positions < max_positions` computes `risk_usd = account_size *
risk_per_trade_pct`, `size_usd = risk_usd / stop_loss_pct`, clamps to
`account_size * max_position_size_pct` (recomputing
`risk_usd = size_usd * stop_loss_pct`) exactly when `size_usd /
account_size` exceeds `max_position_size_pct`, and returns `quantity =
size_usd / entry_price`; in particular for `account_size = 10000`,
`risk_per_trade_pct = 0.02`, `stop_loss_pct = 0.20` the unclamped
`size_usd` is `1000`, and with `entry_price = 0.25` the quantity is
`4000`. -/
theorem positionSizer_formula (a r stop mpp price : ℚ) (maxPos cur : Nat)
    (h : cur < maxPos) :
    (calculate_position_size a r stop maxPos mpp price cur).can_open = true ∧
    (calculate_position_size a r stop maxPos mpp price cur).position_size_usd
      = (if a * r / stop / a > mpp then a * mpp else a * r / stop) ∧
    (calculate_position_size a r stop maxPos mpp price cur).risk_usd
      = (if a * r / stop / a > mpp then a * mpp * stop else a * r) ∧
    (calculate_position_size a r stop maxPos mpp price cur).num_contracts
      = (calculate_position_size a r stop maxPos mpp price cur).position_size_usd / price ∧
    (calculate_position_size 10000 0.02 0.20 5 0.20 0.25 0).position_size_usd = 1000 ∧
    (calculate_position_size 10000 0.02 0.20 5 0.20 0.25 0).num_contracts = 4000 := by
  refine ⟨?_, ?_, ?_, calculate_position_size_num_contracts ..,
    by norm_num [calculate_position_size], by norm_num [calculate_position_size]⟩ <;>
    · simp only [calculate_position_size]
      rw [if_pos h]
      split_ifs <;> rfl

/-- C3 witness: the sizer at the documented concrete inputs. -/
theorem positionSizer_formula_witness :
    (calculate_position_size 10000 0.02 0.20 5 0.20 0.25 0).can_open = true ∧
    (calculate_position_size 10000 0.02 0.20 5 0.20 0.25 0).position_size_usd = 1000 := by
  have h := positionSizer_formula 10000 0.02 0.20 0.20 0.25 5 0 (by decide)
  exact ⟨h.1, h.2.2.2.2.1⟩

/-- C9: `calculate_performance_metrics` on an empty trade list returns the
neutral `_empty_metrics` record (0 trades, 0 win rate, profit factor 0,
max drawdown 0, Sharpe 0) for every equity curve, daily-returns series and
initial capital. -/
theorem perf_empty_trades (sqrtQ : ℚ → ℚ) (equity daily : List ℚ) (cap : ℚ) :
    calculate_performance_metrics sqrtQ [] equity daily cap = empty_metrics ∧
    empty_metrics.total_trades = 0 ∧
    empty_metrics.win_rate = 0 ∧
    empty_metrics.profit_factor = some 0 ∧
    empty_metrics.max_drawdown = some 0 ∧
    empty_metrics.sharpe_ratio = some 0 := by
  refine ⟨?_, rfl, rfl, rfl, rfl, rfl⟩
  unfold calculate_performance_metrics
  simp

/-- C10: in `check_exit_signal`, the trailing stop has priority, so when
the stop condition (close at or below `peak * (1 - trailing_stop_pct)`,
peak being the maximum high over the inclusive `[entry_index,
current_index]` window) holds, the reason is `trailing_stop` even when the
MA-exit condition also holds, and `ma_exit` is reported exactly when the
MA condition holds and the stop condition does not. -/
theorem exit_reason_priority (df : List Bar) (ei ci : Nat) (ep sp : ℚ) (mp : Nat)
    (useMa : Bool) :
    ((check_exit_signal df ei ci ep sp mp useMa).2.trailing_stop_triggered = true →
      (check_exit_signal df ei ci ep sp mp useMa).2.exit_reason = "trailing_stop") ∧
    ((check_exit_signal df ei ci ep sp mp useMa).2.exit_reason = "ma_exit" ↔
      (check_exit_signal df ei ci ep sp mp useMa).2.ma_exit_triggered = true ∧
      (check_exit_signal df ei ci ep sp mp useMa).2.trailing_stop_triggered = false) ∧
    (check_exit_signal df ei ci ep sp mp useMa).2.trailing_stop_triggered
      = decide (barClose df ci ≤ windowHighMax df ei ci * (1 - sp)) := by
  unfold check_exit_signal calculate_trailing_stop
  by_cases hstop : barClose df ci ≤ windowHighMax df ei ci * (1 - sp) <;>
    simp [hstop]

/-- C6: the weekly size-multiplier reduction is idempotent within a week
and resets exactly at the week boundary: with the stored week equal to the
step's week, a multiplier already at 0.5 stays at 0.5 whatever the
capital; the multiplier never leaves `{1, 0.5}` (so it is never reduced
below 0.5); and at the first step whose ISO week number differs from the
stored reference the multiplier is reset to 1 and `weekly_start_capital`
to the current capital, regardless of the capital level. -/
theorem weekly_multiplier_reset (cfg : Config) (st : BState) (week : Nat) :
    (st.current_week = some week → st.size_multiplier = 1 / 2 →
      (checkWeeklyLossLimit cfg st week).size_multiplier = 1 / 2) ∧
    ((st.size_multiplier = 1 ∨ st.size_multiplier = 1 / 2) →
      ((checkWeeklyLossLimit cfg st week).size_multiplier = 1 ∨
        (checkWeeklyLossLimit cfg st week).size_multiplier = 1 / 2) ∧
      1 / 2 ≤ (checkWeeklyLossLimit cfg st week).size_multiplier) ∧
    (st.current_week ≠ some week → 0 < cfg.weekly_loss_limit_pct →
      (checkWeeklyLossLimit cfg st week).size_multiplier = 1 ∧
      (checkWeeklyLossLimit cfg st week).weekly_start_capital = st.capital ∧
      (checkWeeklyLossLimit cfg st week).current_week = some week) := by
  refine ⟨?_, ?_, ?_⟩
  · intro hw hm
    simp only [checkWeeklyLossLimit, hw, ne_eq, not_true_eq_false, if_false, ite_self]
    have : ¬((st.capital - st.weekly_start_capital) / st.weekly_start_capital
        ≤ -cfg.weekly_loss_limit_pct ∧ st.size_multiplier = 1) := by
      rintro ⟨-, h1⟩
      rw [hm] at h1
      norm_num at h1
    simp [this, hm]
  · intro hm
    simp only [checkWeeklyLossLimit]
    split_ifs with h1 h2 h3
    · exact ⟨Or.inr rfl, by norm_num⟩
    · exact ⟨Or.inl rfl, by norm_num⟩
    · exact ⟨Or.inr rfl, by norm_num⟩
    · rcases hm with h | h
      · exact ⟨Or.inl h, by rw [h]; norm_num⟩
      · exact ⟨Or.inr h, by rw [h]⟩
  · intro hw hpos
    simp only [checkWeeklyLossLimit, if_pos hw]
    split_ifs with h1
    · exfalso
      rw [sub_self, zero_div] at h1
      rcases h1 with ⟨h1, -⟩
      linarith
    · exact ⟨rfl, rfl, rfl⟩

/-- C6 witness: a second breach in the same week leaves the multiplier at
0.5, and a week boundary resets it to 1 with a fresh capital reference. -/
theorem weekly_multiplier_reset_witness :
    (checkWeeklyLossLimit
      { initial_capital := 10000, risk_per_trade_pct := 0.02, stop_loss_pct := 0.20
        max_positions := 5, commission_pct := 0.001, slippage_pct := 0.001
        daily_loss_limit_pct := 0.03, weekly_loss_limit_pct := 0.08
        max_position_size_pct := 0.20 }
      { capital := 9000, positions := [], trades := [], sizer_account_size := 9000
        daily_start_capital := 9000, weekly_start_capital := 10000
        current_date := some 3, current_week := some 1, size_multiplier := 1 / 2
        daily_trading_stopped := false } 1).size_multiplier = 1 / 2 ∧
    (checkWeeklyLossLimit
      { initial_capital := 10000, risk_per_trade_pct := 0.02, stop_loss_pct := 0.20
        max_positions := 5, commission_pct := 0.001, slippage_pct := 0.001
        daily_loss_limit_pct := 0.03, weekly_loss_limit_pct := 0.08
        max_position_size_pct := 0.20 }
      { capital := 9000, positions := [], trades := [], sizer_account_size := 9000
        daily_start_capital := 9000, weekly_start_capital := 10000
        current_date := some 3, current_week := some 1, size_multiplier := 1 / 2
        daily_trading_stopped := false } 2).size_multiplier = 1 := by
  constructor
  · exact (weekly_multiplier_reset _ _ 1).1 rfl rfl
  · exact ((weekly_multiplier_reset _ _ 2).2.2 (by simp) (by norm_num)).1

/-- C5: once the daily loss (relative to the day's starting reference)
reaches `-daily_loss_limit_pct`, the gate returns true and the sticky flag
is set; the flag keeps the gate true for every later step of the same
date; a step with a new date resets the reference capital to the current
capital and clears the flag (so entries are permitted again when the limit
is positive); when the gate is true `_check_entries` performs no opens
(the state it returns is exactly the risk-tracking update); and closing a
position is unaffected by the flag, so exits still execute. -/
theorem daily_loss_limit_gate (cfg : Config) (st : BState) (date : Nat) :
    (st.current_date = some date →
      (st.capital - st.daily_start_capital) / st.daily_start_capital
          ≤ -cfg.daily_loss_limit_pct →
      (checkDailyLossLimit cfg st date).1 = true ∧
      (checkDailyLossLimit cfg st date).2.daily_trading_stopped = true) ∧
    (st.current_date = some date → st.daily_trading_stopped = true →
      (checkDailyLossLimit cfg st date).1 = true ∧
      (checkDailyLossLimit cfg st date).2.daily_trading_stopped = true) ∧
    (st.current_date ≠ some date →
      (checkDailyLossLimit cfg st date).2.daily_start_capital = st.capital ∧
      (checkDailyLossLimit cfg st date).2.current_date = some date ∧
      (0 < cfg.daily_loss_limit_pct →
        (checkDailyLossLimit cfg st date).1 = false ∧
        (checkDailyLossLimit cfg st date).2.daily_trading_stopped = false)) ∧
    (∀ week cands data, (checkDailyLossLimit cfg st date).1 = true →
      checkEntries cfg st date week cands data = (checkDailyLossLimit cfg st date).2) ∧
    (∀ sym i ed df b,
      closePosition cfg { st with daily_trading_stopped := b } sym i ed df
        = { closePosition cfg st sym i ed df with daily_trading_stopped := b }) := by
  refine ⟨?_, ?_, ?_, ?_, ?_⟩
  · intro hd hloss
    simp only [checkDailyLossLimit, hd, ne_eq, not_true_eq_false, if_false, ite_self]
    by_cases hstop : st.daily_trading_stopped <;> simp [hstop, hloss]
  · intro hd hstop
    simp only [checkDailyLossLimit, hd, ne_eq, not_true_eq_false, if_false, ite_self]
    simp [hstop]
  · intro hd
    simp only [checkDailyLossLimit, if_pos hd]
    refine ⟨?_, ?_, fun hpos => ?_⟩
    · split_ifs <;> rfl
    · split_ifs <;> rfl
    · have hno : ¬(st.capital - st.capital) / st.capital ≤ -cfg.daily_loss_limit_pct := by
        rw [sub_self, zero_div]
        linarith
      rw [if_neg (show ¬(false = true) by simp), if_neg hno]
      exact ⟨rfl, rfl⟩
  · intro week cands data hgate
    simp [checkEntries, hgate]
  · intro sym i ed df b
    simp only [closePosition]
    cases st.positions.find? (fun p => p.symbol == sym) <;> rfl

/-- C5 witness: at a concrete breached state the gate trips and stays
tripped, and the next calendar day resets the reference and reopens the
gate. -/
theorem daily_loss_limit_gate_witness :
    (checkDailyLossLimit
      { initial_capital := 10000, risk_per_trade_pct := 0.02, stop_loss_pct := 0.20
        max_positions := 5, commission_pct := 0.001, slippage_pct := 0.001
        daily_loss_limit_pct := 0.03, weekly_loss_limit_pct := 0.08
        max_position_size_pct := 0.20 }
      { capital := 9600, positions := [], trades := [], sizer_account_size := 9600
        daily_start_capital := 10000, weekly_start_capital := 10000
        current_date := some 7, current_week := some 2, size_multiplier := 1
        daily_trading_stopped := false } 7).1 = true ∧
    (checkDailyLossLimit
      { initial_capital := 10000, risk_per_trade_pct := 0.02, stop_loss_pct := 0.20
        max_positions := 5, commission_pct := 0.001, slippage_pct := 0.001
        daily_loss_limit_pct := 0.03, weekly_loss_limit_pct := 0.08
        max_position_size_pct := 0.20 }
      { capital := 9600, positions := [], trades := [], sizer_account_size := 9600
        daily_start_capital := 10000, weekly_start_capital := 10000
        current_date := some 7, current_week := some 2, size_multiplier := 1
        daily_trading_stopped := true } 8).1 = false := by
  constructor
  · exact ((daily_loss_limit_gate _ _ 7).1 rfl (by norm_num)).1
  · exact (((daily_loss_limit_gate _ _ 8).2.2.1 (by simp)).2.2 (by norm_num)).1

/-- The sizer accepts exactly when `current_positions < max_positions`. -/
theorem calculate_position_size_can_open (a r s : ℚ) (mp : Nat) (mpp ep : ℚ) (cur : Nat) :
    (calculate_position_size a r s mp mpp ep cur).can_open = decide (cur < mp) := by
  simp only [calculate_position_size]
  split_ifs with h1 h2 <;> simp [h1]

/-- C2: commission is charged at entry and exit independently.  Opening a
position debits cash by the recorded (post-commission) invested notional
plus an entry commission of `commission_pct` times the entry notional
`quantity * entry_price`; closing credits cash with the exit notional
`quantity * (close * (1 - slippage_pct))` minus an exit commission of
`commission_pct` times that exit notional. -/
theorem commission_entry_and_exit :
    (∀ (cfg : Config) (st : BState) (sym : String) (d : Nat) (price : ℚ) (df : List Bar)
      (p : Position),
      st.positions.length < cfg.max_positions →
      (findBarIdx? df d).isSome = true →
      price * (1 + cfg.slippage_pct) ≠ 0 →
      (openPosition cfg st sym d price df).positions.head? = some p →
      st.capital - (openPosition cfg st sym d price df).capital
        = p.position_size_usd + cfg.commission_pct * (p.num_contracts * p.entry_price)) ∧
    (∀ (cfg : Config) (st : BState) (sym : String) (i : Nat) (ed : ExitDetails)
      (df : List Bar) (p : Position),
      st.positions.find? (fun q => q.symbol == sym) = some p →
      (closePosition cfg st sym i ed df).capital
        = st.capital + p.num_contracts * (ed.close * (1 - cfg.slippage_pct))
          - cfg.commission_pct * (p.num_contracts * (ed.close * (1 - cfg.slippage_pct)))) := by
  constructor
  · intro cfg st sym d price df p h1 h2 hP hhead
    obtain ⟨x, hx⟩ := Option.isSome_iff_exists.mp h2
    obtain ⟨i, b⟩ := x
    have hco : (calculate_position_size st.sizer_account_size cfg.risk_per_trade_pct
        cfg.stop_loss_pct cfg.max_positions cfg.max_position_size_pct
        (price * (1 + cfg.slippage_pct)) st.positions.length).can_open = true := by
      rw [calculate_position_size_can_open]
      exact decide_eq_true h1
    simp only [openPosition, hco, if_true, hx, List.head?_cons, Option.some_inj] at hhead ⊢
    subst hhead
    rw [calculate_position_size_num_contracts]
    field_simp
    ring
  · intro cfg st sym i ed df p hfind
    simp only [closePosition, hfind]
    ring

/-- Shared concrete inputs for witnesses: a one-bar price series, a
commission-only configuration, and the states around one open and one
close. -/
def cfgC : Config :=
  { initial_capital := 10000, risk_per_trade_pct := 0.02, stop_loss_pct := 0.20
    max_positions := 5, commission_pct := 0.001, slippage_pct := 0
    daily_loss_limit_pct := 0.03, weekly_loss_limit_pct := 0.08
    max_position_size_pct := 0.20 }

/-- The single bar of the one-bar witness price series. -/
def barC : Bar := { ts := 0, high := 101, low := 99, close := 100 }

/-- One-bar price series used by concrete witnesses. -/
def dfC : List Bar := [barC]

/-- The position `openPosition cfgC (initState cfgC) "A" 0 100 dfC`
creates. -/
def pC : Position :=
  { symbol := "A", entry_date := 0, entry_index := 0, entry_price := 100
    position_size_usd := 999, num_contracts := 10, peak_price := 100, peak_date := 0 }

/-- A state holding the position `pC`, used by close-side witnesses. -/
def stC2 : BState :=
  { capital := 9000, positions := [pC], trades := [], sizer_account_size := 9000
    daily_start_capital := 10000, weekly_start_capital := 10000
    current_date := some 0, current_week := some 1, size_multiplier := 1
    daily_trading_stopped := false }

/-- Exit details used by close-side witnesses. -/
def edC : ExitDetails := { close := 110, ts := 1, holding_days := 1, exit_reason := "trailing_stop" }

/-- C2 witness: the concrete open debits `999 + 0.001 * (10 * 100)` and the
concrete close credits the exit notional minus its commission. -/
theorem commission_entry_and_exit_witness :
    (initState cfgC).capital - (openPosition cfgC (initState cfgC) "A" 0 100 dfC).capital
      = pC.position_size_usd + cfgC.commission_pct * (pC.num_contracts * pC.entry_price) ∧
    (closePosition cfgC stC2 "A" 0 edC dfC).capital
      = stC2.capital + pC.num_contracts * (edC.close * (1 - cfgC.slippage_pct))
        - cfgC.commission_pct * (pC.num_contracts * (edC.close * (1 - cfgC.slippage_pct))) := by
  constructor
  · refine commission_entry_and_exit.1 cfgC (initState cfgC) "A" 0 100 dfC pC ?_ ?_ ?_ ?_
    · norm_num [initState, cfgC]
    · norm_num [findBarIdx?, dfC, barC, List.findIdx?]
    · norm_num [cfgC]
    · norm_num [openPosition, calculate_position_size, findBarIdx?, dfC, barC, List.findIdx?,
        initState, cfgC, pC]
  · refine commission_entry_and_exit.2 cfgC stC2 "A" 0 edC dfC pC ?_
    norm_num [stC2, pC, List.find?]

/-- Configuration with nonzero slippage, for the universe-exit claims. -/
def cfgS : Config := { cfgC with slippage_pct := 0.001 }

/-- C4 counterexample: with `slippage_pct = 0.001`, force-closing the open
position "A" (absent from the empty universe) at the bar whose close is
100 records the trade with reason `removed_from_universe` but at exit
price `99.9`, not the step's close price — `_close_position` applies
slippage to universe exits, contradicting the claim's "no slippage
applied". -/
theorem universe_exit_no_slippage_counterexample :
    ((checkUniverseExits cfgS (fun _ => dfC) stC2 0 []).trades.getLast?).map Trade.exit_reason
      = some "removed_from_universe" ∧
    ((checkUniverseExits cfgS (fun _ => dfC) stC2 0 []).trades.getLast?).map Trade.exit_price
      = some (999 / 10) ∧
    barClose dfC 0 = 100 ∧ (999 / 10 : ℚ) ≠ 100 := by
  refine ⟨?_, ?_, by norm_num [barClose, dfC, barC], by norm_num⟩ <;>
    norm_num [checkUniverseExits, closePosition, findBarIdx?, List.findIdx?, List.find?,
      List.filterMap_cons, List.filterMap_nil, List.foldl_cons, List.foldl_nil,
      stC2, pC, dfC, barC, cfgS, cfgC]

/-- C4 (amended): on the first step at which the open position's symbol is
absent from the universe snapshot, the position is force-closed with exit
reason `removed_from_universe` at the step's close price with exit
slippage applied (exit price `close * (1 - slippage_pct)`), commission
still applies to the cash credit, and the position is removed before the
signal-exit check runs, so no other exit reason is possible on that
step. -/
theorem universe_exit_amended (cfg : Config) (data : String → List Bar) (st : BState)
    (date : Nat) (univ : List String) (p : Position) (i : Nat) (b : Bar)
    (hpos : st.positions = [p])
    (hnot : univ.contains p.symbol = false)
    (hfind : findBarIdx? (data p.symbol) date = some (i, b)) :
    ((checkUniverseExits cfg data st date univ).trades).length
      = st.trades.length + 1 ∧
    ((checkUniverseExits cfg data st date univ).trades.getLast?).map Trade.exit_reason
      = some "removed_from_universe" ∧
    ((checkUniverseExits cfg data st date univ).trades.getLast?).map Trade.exit_price
      = some (b.close * (1 - cfg.slippage_pct)) ∧
    (checkUniverseExits cfg data st date univ).positions = [] ∧
    (checkUniverseExits cfg data st date univ).capital
      = st.capital + p.num_contracts * (b.close * (1 - cfg.slippage_pct))
        - p.num_contracts * (b.close * (1 - cfg.slippage_pct)) * cfg.commission_pct ∧
    (∀ mp useMa,
      (checkExits cfg data (checkUniverseExits cfg data st date univ) date mp useMa).trades
        = (checkUniverseExits cfg data st date univ).trades) := by
  have hfindp : st.positions.find? (fun q => q.symbol == p.symbol) = some p := by
    rw [hpos]
    simp [List.find?]
  have hmem : p.symbol ∉ univ := by simpa using hnot
  have hsingle : checkUniverseExits cfg data st date univ
      = closePosition cfg st p.symbol i
          ({ close := b.close, ts := date, holding_days := i - p.entry_index,
             exit_reason := "removed_from_universe" } : ExitDetails) (data p.symbol) := by
    simp [checkUniverseExits, hpos, hmem, hfind]
  have herase : st.positions.eraseP (fun q => q.symbol == p.symbol) = [] := by
    rw [hpos]
    simp [List.eraseP_cons]
  rw [hsingle]
  simp only [closePosition, hfindp]
  refine ⟨by simp, ?_, ?_, by simpa using herase, by ring, ?_⟩
  · simp
  · simp
  · intro mp useMa
    simp [checkExits, herase]

/-- C4 witness: the amended statement at the concrete slippage
configuration. -/
theorem universe_exit_amended_witness :
    ((checkUniverseExits cfgS (fun _ => dfC) stC2 0 []).trades).length
      = stC2.trades.length + 1 ∧
    ((checkUniverseExits cfgS (fun _ => dfC) stC2 0 []).trades.getLast?).map Trade.exit_price
      = some (barC.close * (1 - cfgS.slippage_pct)) := by
  have h := universe_exit_amended cfgS (fun _ => dfC) stC2 0 [] pC 0 barC
    (by norm_num [stC2]) (by norm_num) (by norm_num [findBarIdx?, dfC, barC, List.findIdx?])
  exact ⟨h.1, h.2.2.1⟩

/-- Two-bar price series on which both exit conditions fire at once. -/
def df10 : List Bar :=
  [{ ts := 0, high := 100, low := 90, close := 100 },
   { ts := 1, high := 50, low := 40, close := 50 }]

/-- C10 witness: on `df10` at index 1 both the trailing stop (close 50 at
or below `100 * 0.8`) and the MA exit (close 50 below the 2-period SMA 75)
hold, and the reported reason is `trailing_stop`. -/
theorem exit_reason_priority_witness :
    (check_exit_signal df10 0 1 100 0.20 2 true).2.trailing_stop_triggered = true ∧
    (check_exit_signal df10 0 1 100 0.20 2 true).2.ma_exit_triggered = true ∧
    (check_exit_signal df10 0 1 100 0.20 2 true).2.exit_reason = "trailing_stop" := by
  have hstop : (check_exit_signal df10 0 1 100 0.20 2 true).2.trailing_stop_triggered
      = true := by
    norm_num [check_exit_signal, calculate_trailing_stop, windowHighMax, barClose, smaAt, df10]
  refine ⟨hstop, ?_, (exit_reason_priority df10 0 1 100 0.20 2 true).1 hstop⟩
  norm_num [check_exit_signal, calculate_trailing_stop, windowHighMax, barClose, smaAt, df10]

/-- Stable descending insertion preserves membership. -/
theorem mem_insertCandDesc {x c : Cand} {l : List Cand} :
    x ∈ insertCandDesc c l ↔ x = c ∨ x ∈ l := by
  induction l with
  | nil => simp [insertCandDesc]
  | cons d ds ih =>
    simp only [insertCandDesc]
    split_ifs with h
    · simp [List.mem_cons]
    · simp only [List.mem_cons, ih]
      tauto

/-- Stable descending insertion is a permutation of consing. -/
theorem insertCandDesc_perm (c : Cand) (l : List Cand) :
    (insertCandDesc c l).Perm (c :: l) := by
  induction l with
  | nil => exact List.Perm.refl _
  | cons d ds ih =>
    simp only [insertCandDesc]
    split_ifs with h
    · exact List.Perm.refl _
    · exact (ih.cons d).trans (List.Perm.swap c d ds)

/-- The stable sort is a permutation of its input. -/
theorem sortStrengthDesc_perm (l : List Cand) : (sortStrengthDesc l).Perm l := by
  induction l with
  | nil => exact List.Perm.refl _
  | cons c cs ih => exact (insertCandDesc_perm c _).trans (ih.cons c)

/-- Stable descending insertion preserves the descending-strength pairwise
relation. -/
theorem pairwise_insertCandDesc {c : Cand} {l : List Cand}
    (h : l.Pairwise (fun a b => b.strength ≤ a.strength)) :
    (insertCandDesc c l).Pairwise (fun a b => b.strength ≤ a.strength) := by
  induction l with
  | nil => simp [insertCandDesc]
  | cons d ds ih =>
    rw [List.pairwise_cons] at h
    obtain ⟨hd, hds⟩ := h
    simp only [insertCandDesc]
    split_ifs with hcmp
    · refine List.Pairwise.cons ?_ (List.Pairwise.cons hd hds)
      intro x hx
      rcases List.mem_cons.mp hx with rfl | hx
      · exact hcmp
      · exact le_trans (hd x hx) hcmp
    · refine List.Pairwise.cons ?_ (ih hds)
      intro x hx
      rcases mem_insertCandDesc.mp hx with rfl | hx
      · exact le_of_not_le hcmp
      · exact hd x hx

/-- The stable sort is sorted by descending strength. -/
theorem sortStrengthDesc_pairwise (l : List Cand) :
    (sortStrengthDesc l).Pairwise (fun a b => b.strength ≤ a.strength) := by
  induction l with
  | nil => simp [sortStrengthDesc]
  | cons c cs ih => exact pairwise_insertCandDesc ih

/-- The three-candidate opportunity list of the spec's ranking example, in
scan order. -/
def candsE : List Cand :=
  [{ symbol := "A", price := 100, strength := 0.9 },
   { symbol := "B", price := 100, strength := 0.95 },
   { symbol := "C", price := 100, strength := 0.4 }]

/-- Configuration with a single position slot. -/
def cfg7 : Config := { cfgC with max_positions := 1 }

/-- State after the first daily-limit check of the ranking example. -/
def stA7 : BState :=
  { capital := 10000, positions := [], trades := [], sizer_account_size := 10000
    daily_start_capital := 10000, weekly_start_capital := 10000
    current_date := some 0, current_week := none, size_multiplier := 1
    daily_trading_stopped := false }

/-- State after the first weekly-limit check of the ranking example. -/
def stB7 : BState := { stA7 with current_week := some 1 }

set_option maxHeartbeats 1600000 in
/-- C7: the engine opens exactly the `k = max_positions - open_count`
strongest candidates in descending strength order: the sorted prefix it
acts on, together with the dropped suffix, is a permutation of the
eligible candidates; every taken candidate's strength is ≥ every dropped
candidate's strength; the taken prefix is descending; and with candidate
strengths `[0.9, 0.95, 0.4]` and one free slot `_check_entries` opens
exactly the symbol with strength `0.95`. -/
theorem entry_ranking_top_k (cands : List Cand) (k : Nat) :
    ((sortStrengthDesc cands).take k ++ (sortStrengthDesc cands).drop k).Perm cands ∧
    (∀ a ∈ (sortStrengthDesc cands).take k, ∀ b ∈ (sortStrengthDesc cands).drop k,
      b.strength ≤ a.strength) ∧
    ((sortStrengthDesc cands).take k).Pairwise (fun a b => b.strength ≤ a.strength) ∧
    ((checkEntries cfg7 (initState cfg7) 0 1 candsE (fun _ => dfC)).positions.map
      Position.symbol) = ["B"] := by
  refine ⟨?_, ?_, ?_, ?_⟩
  · rw [List.take_append_drop]
    exact sortStrengthDesc_perm cands
  · have hp := sortStrengthDesc_pairwise cands
    rw [← List.take_append_drop k (sortStrengthDesc cands)] at hp
    exact fun a ha b hb => (List.pairwise_append.mp hp).2.2 a ha b hb
  · exact (sortStrengthDesc_pairwise cands).sublist (List.take_sublist k _)
  · have h1 : checkDailyLossLimit cfg7 (initState cfg7) 0 = (false, stA7) := by
      simp [checkDailyLossLimit, initState, cfg7, cfgC, stA7]
      norm_num
    have h2 : checkWeeklyLossLimit cfg7 stA7 1 = stB7 := by
      simp [checkWeeklyLossLimit, stA7, stB7, cfg7, cfgC]
      norm_num
    have h3 : sortStrengthDesc candsE
        = [{ symbol := "B", price := 100, strength := 0.95 },
           { symbol := "A", price := 100, strength := 0.9 },
           { symbol := "C", price := 100, strength := 0.4 }] := by
      norm_num [sortStrengthDesc, insertCandDesc, candsE]
    have h4 : (openPosition cfg7 stB7 "B" 0 100 dfC).positions.map Position.symbol
        = ["B"] := by
      norm_num [openPosition, calculate_position_size, findBarIdx?, List.findIdx?,
        dfC, barC, cfg7, cfgC, stB7, stA7]
    have h5 : gatherOpportunities stB7 candsE = candsE := by
      simp [gatherOpportunities, stB7, stA7, candsE]
    have h6 : ¬(cfg7.max_positions ≤ stB7.positions.length) := by
      simp [cfg7, cfgC, stB7, stA7]
    have h7 : cfg7.max_positions - stB7.positions.length = 1 := by
      simp [cfg7, cfgC, stB7, stA7]
    simp only [checkEntries, h1]
    rw [if_neg (show ¬(false = true) by simp)]
    rw [h2, h5, h3, h7, if_neg h6]
    simp [h4]

/-- C7 witness: the ranking property at the spec's three-candidate list
with one slot. -/
theorem entry_ranking_top_k_witness :
    ((sortStrengthDesc candsE).take 1 ++ (sortStrengthDesc candsE).drop 1).Perm candsE :=
  (entry_ranking_top_k candsE 1).1

/-- Erasing the element `find?` located removes exactly its contribution
from a mapped sum. -/
theorem sum_map_eraseP (f : Position → ℚ) (pr : Position → Bool) :
    ∀ (l : List Position) (p : Position), l.find? pr = some p →
      ((l.eraseP pr).map f).sum = (l.map f).sum - f p := by
  intro l
  induction l with
  | nil => intro p hp; simp at hp
  | cons a as ih =>
    intro p hp
    by_cases h : pr a = true
    · rw [List.find?_cons_of_pos _ h] at hp
      rw [Option.some_inj] at hp
      subst hp
      rw [List.eraseP_cons_of_pos h]
      simp
    · rw [List.find?_cons_of_neg _ h] at hp
      rw [List.eraseP_cons_of_neg h]
      simp only [List.map_cons, List.sum_cons, ih p hp]
      ring

/-- Opening a position with a positive raw price preserves the conserved
accounting quantity: cash drops by the scaled gross size while the open
notional `quantity * entry_price` rises by the same amount. -/
theorem conservedQty_open (cfg : Config) (st : BState) (sym : String) (d : Nat)
    (price : ℚ) (df : List Bar) (hslip : 0 ≤ cfg.slippage_pct) (hp : 0 < price) :
    conservedQty (openPosition cfg st sym d price df) = conservedQty st := by
  have hpos : (0 : ℚ) < price * (1 + cfg.slippage_pct) := mul_pos hp (by linarith)
  have hne : price * (1 + cfg.slippage_pct) ≠ 0 := ne_of_gt hpos
  simp only [openPosition]
  split_ifs with hco
  · cases hfb : findBarIdx? df d with
    | none => rfl
    | some ib =>
      obtain ⟨i, b⟩ := ib
      simp only [conservedQty, notionalSum, returnSum, List.map_cons, List.sum_cons]
      rw [calculate_position_size_num_contracts]
      field_simp
      ring
  · rfl

/-- Closing a position preserves the conserved accounting quantity: the
cash credit net of exit commission equals the removed entry notional plus
the recorded `return_usd`. -/
theorem conservedQty_close (cfg : Config) (st : BState) (sym : String) (i : Nat)
    (ed : ExitDetails) (df : List Bar) :
    conservedQty (closePosition cfg st sym i ed df) = conservedQty st := by
  simp only [closePosition]
  cases hf : st.positions.find? (fun q => q.symbol == sym) with
  | none => rfl
  | some p =>
    simp only [conservedQty, notionalSum, returnSum, List.map_append, List.sum_append,
      List.map_cons, List.sum_cons, List.map_nil, List.sum_nil]
    rw [sum_map_eraseP _ _ _ _ hf]
    ring

/-- Every engine action with a positive open price preserves the conserved
accounting quantity. -/
theorem conservedQty_applyEv (cfg : Config) (data : String → List Bar) (st : BState)
    (ev : Ev) (hslip : 0 ≤ cfg.slippage_pct) (hv : evPricePos ev = true) :
    conservedQty (applyEv cfg data st ev) = conservedQty st := by
  cases ev with
  | openEv s d price =>
    have hp : 0 < price := by simpa [evPricePos] using hv
    exact conservedQty_open cfg st s d price (data s) hslip hp
  | peakEv s price d =>
    simp only [applyEv, conservedQty, notionalSum, returnSum, List.map_map]
    have hfun : ∀ p ∈ st.positions,
        ((fun q : Position => q.num_contracts * q.entry_price) ∘ fun q =>
          if (q.symbol == s) = true then q.update_peak price d else q) p
          = p.num_contracts * p.entry_price := by
      intro p _
      simp only [Function.comp_apply, Position.update_peak]
      split_ifs <;> rfl
    rw [List.map_congr_left hfun]
  | closeEv s i ed => exact conservedQty_close cfg st s i ed (data s)
  | dailyEv d =>
    simp only [applyEv, checkDailyLossLimit]
    split_ifs <;> rfl
  | weeklyEv w =>
    simp only [applyEv, checkWeeklyLossLimit]
    split_ifs <;> rfl

/-- C1: capital conservation.  Over any run (any sequence of engine
actions whose opens use positive prices, with nonnegative slippage), the
quantity `cash + Σ(open quantity * entry price) - Σ(trade.return_usd)`
equals `initial_capital`; it is preserved by every `_open_position` and by
every `_close_position`; and when the run ends with no open position
(`_close_all_positions` has closed everything), the final cash equals the
initial capital plus the sum of `return_usd` over the recorded trades. -/
theorem capital_conservation (cfg : Config) (data : String → List Bar) (evs : List Ev)
    (hslip : 0 ≤ cfg.slippage_pct) (hv : evs.all evPricePos = true) :
    conservedQty (runEvents cfg data evs) = cfg.initial_capital ∧
    ((runEvents cfg data evs).positions = [] →
      (runEvents cfg data evs).capital
        = cfg.initial_capital + returnSum (runEvents cfg data evs).trades) ∧
    (∀ (st : BState) (sym : String) (d : Nat) (price : ℚ) (df : List Bar), 0 < price →
      conservedQty (openPosition cfg st sym d price df) = conservedQty st) ∧
    (∀ (st : BState) (sym : String) (i : Nat) (ed : ExitDetails) (df : List Bar),
      conservedQty (closePosition cfg st sym i ed df) = conservedQty st) := by
  have main : ∀ (l : List Ev) (st : BState), l.all evPricePos = true →
      conservedQty (l.foldl (applyEv cfg data) st) = conservedQty st := by
    intro l
    induction l with
    | nil => intro st _; rfl
    | cons e es ih =>
      intro st hall
      rw [List.all_cons, Bool.and_eq_true] at hall
      rw [List.foldl_cons, ih _ hall.2]
      exact conservedQty_applyEv cfg data st e hslip hall.1
  have h0 : conservedQty (initState cfg) = cfg.initial_capital := by
    simp [conservedQty, initState, notionalSum, returnSum]
  have hrun : conservedQty (runEvents cfg data evs) = cfg.initial_capital := by
    rw [runEvents, main evs _ hv, h0]
  refine ⟨hrun, fun hempty => ?_,
    fun st sym d price df hp => conservedQty_open cfg st sym d price df hslip hp,
    fun st sym i ed df => conservedQty_close cfg st sym i ed df⟩
  rw [conservedQty, hempty] at hrun
  simp only [notionalSum, List.map_nil, List.sum_nil] at hrun
  linarith

/-- A two-action run: open "A" at the bar close, then close it. -/
def evsC : List Ev := [Ev.openEv "A" 0 100, Ev.closeEv "A" 0 edC]

/-- C1 witness: on the concrete two-action run every position is closed
and the final cash equals the initial capital plus the recorded
`return_usd`. -/
theorem capital_conservation_witness :
    (runEvents cfgC (fun _ => dfC) evsC).positions = [] ∧
    (runEvents cfgC (fun _ => dfC) evsC).capital
      = cfgC.initial_capital + returnSum (runEvents cfgC (fun _ => dfC) evsC).trades := by
  have hempty : (runEvents cfgC (fun _ => dfC) evsC).positions = [] := by
    norm_num [runEvents, evsC, applyEv, openPosition, closePosition, calculate_position_size,
      findBarIdx?, List.findIdx?, initState, cfgC, dfC, barC, edC, List.find?, List.eraseP]
  exact ⟨hempty,
    (capital_conservation cfgC (fun _ => dfC) evsC (by norm_num [cfgC])
      (by norm_num [evsC, evPricePos])).2.1 hempty⟩

/-- A left fold by `min` never exceeds its starting value. -/
theorem foldl_min_le (x : ℚ) (xs : List ℚ) : xs.foldl min x ≤ x := by
  induction xs generalizing x with
  | nil => exact le_refl x
  | cons y ys ih => exact le_trans (ih (min x y)) (min_le_left x y)

/-- Over a nonempty window starting in range, the window-low minimum is at
most the low of the window's first bar. -/
theorem windowLowMin_le_barLow (df : List Bar) (a b : Nat) (ha : a < df.length)
    (hab : a ≤ b) : windowLowMin df a b ≤ barLow df a := by
  unfold windowLowMin
  have h1 : b + 1 - a = Nat.succ (b - a) := by omega
  have h2 : df.drop a = df.get ⟨a, ha⟩ :: df.drop (a + 1) := List.drop_eq_get_cons ha
  rw [h1, h2]
  simp only [List.take_succ_cons, List.map_cons]
  have h3 : barLow df a = (df.get ⟨a, ha⟩).low := by
    simp [barLow, List.getElem?_eq_getElem ha]
  rw [h3]
  exact foldl_min_le _ _

/-- An out-of-range or inverted window has window-low minimum 0. -/
theorem windowLowMin_of_empty (df : List Bar) (a b : Nat)
    (h : ¬(a < df.length ∧ a ≤ b)) : windowLowMin df a b = 0 := by
  unfold windowLowMin
  rcases not_and_or.mp h with h | h
  · have hd : df.drop a = [] := List.drop_eq_nil_of_le (by omega)
    rw [hd]
    simp
  · have hz : b + 1 - a = 0 := by omega
    rw [hz]
    simp

/-- A successful bar lookup returns the row at the returned index. -/
theorem findBarIdx?_get {df : List Bar} {date i : Nat} {b : Bar}
    (h : findBarIdx? df date = some (i, b)) : df.get? i = some b := by
  unfold findBarIdx? at h
  cases hj : df.findIdx? (fun x => x.ts == date) with
  | none => rw [hj] at h; cases h
  | some j =>
    rw [hj] at h
    dsimp only at h
    cases hg : df.get? j with
    | none => rw [hg] at h; cases h
    | some c =>
      rw [hg] at h
      simp at h
      obtain ⟨rfl, rfl⟩ := h
      exact hg

/-- Position invariant maintained by the engine for claim C8: the peak is
at least the (post-slippage) entry price, and the entry price is the
positive close of the bar at the position's entry index, scaled by
`1 + slippage_pct`, at a bar whose low is at most its close. -/
def PosInv (cfg : Config) (df : List Bar) (p : Position) : Prop :=
  p.entry_price ≤ p.peak_price ∧
  0 < barClose df p.entry_index ∧
  barLow df p.entry_index ≤ barClose df p.entry_index ∧
  p.entry_price = barClose df p.entry_index * (1 + cfg.slippage_pct)

/-- Run invariant for claim C8: every open position satisfies `PosInv` and
every recorded trade has nonpositive maximum adverse excursion and a peak
at least its entry price. -/
def StOk (cfg : Config) (data : String → List Bar) (st : BState) : Prop :=
  (∀ p ∈ st.positions, PosInv cfg (data p.symbol) p) ∧
  (∀ t ∈ st.trades, t.max_adverse_excursion ≤ 0 ∧ t.entry_price ≤ t.peak_price)

/-- Opening a position preserves the C8 run invariant when the open price
is the close of the bar at the entry date (the engine passes the signal
row's close) and the data satisfies the price-provider contract. -/
theorem StOk_open (cfg : Config) (data : String → List Bar) (st : BState)
    (s : String) (d : Nat) (price : ℚ)
    (hok : StOk cfg data st) (hdata : DataOk data)
    (hv : evPriceFromData data (Ev.openEv s d price) = true) :
    StOk cfg data (openPosition cfg st s d price (data s)) := by
  simp only [openPosition]
  split_ifs with hco
  · cases hfb : findBarIdx? (data s) d with
    | none => exact hok
    | some ib =>
      obtain ⟨i, b⟩ := ib
      simp only [evPriceFromData, hfb] at hv
      have hprice : price = b.close := by simpa using hv
      have hget : (data s).get? i = some b := findBarIdx?_get hfb
      have hbmem : b ∈ data s := List.get?_mem hget
      have hbar := hdata s b hbmem
      have hgetE : (data s)[i]? = some b := by simpa [← List.get?_eq_getElem?] using hget
      have hbc : barClose (data s) i = b.close := by simp [barClose, hgetE]
      have hbl : barLow (data s) i = b.low := by simp [barLow, hgetE]
      constructor
      · intro q hq
        rcases List.mem_cons.mp hq with rfl | hq
        · refine ⟨le_refl _, ?_, ?_, ?_⟩
          · rw [hbc]
            exact lt_of_lt_of_le hbar.2 hbar.1
          · rw [hbc, hbl]
            exact hbar.1
          · rw [hbc, hprice]
        · exact hok.1 q hq
      · exact hok.2
  · exact hok

/-- Closing a position preserves the C8 run invariant: the recorded trade
inherits `peak ≥ entry` from the position, and its maximum adverse
excursion is nonpositive because the window minimum cannot exceed the
entry bar's low. -/
theorem StOk_close (cfg : Config) (data : String → List Bar) (st : BState)
    (s : String) (i : Nat) (ed : ExitDetails)
    (hok : StOk cfg data st) (hslip : 0 ≤ cfg.slippage_pct) :
    StOk cfg data (closePosition cfg st s i ed (data s)) := by
  simp only [closePosition]
  cases hf : st.positions.find? (fun q => q.symbol == s) with
  | none => exact hok
  | some p =>
    have hmem : p ∈ st.positions := List.mem_of_find?_eq_some hf
    have hsym : p.symbol = s := by
      have hb := List.find?_some hf
      simpa using hb
    have hinv := hok.1 p hmem
    rw [hsym] at hinv
    obtain ⟨hpeak, hcpos, hlc, hentry⟩ := hinv
    have hE : 0 < p.entry_price := by
      rw [hentry]
      exact mul_pos hcpos (by linarith)
    have hmin : windowLowMin (data s) p.entry_index i ≤ p.entry_price := by
      by_cases hc : p.entry_index < (data s).length ∧ p.entry_index ≤ i
      · calc windowLowMin (data s) p.entry_index i
            ≤ barLow (data s) p.entry_index := windowLowMin_le_barLow _ _ _ hc.1 hc.2
          _ ≤ barClose (data s) p.entry_index := hlc
          _ ≤ barClose (data s) p.entry_index * (1 + cfg.slippage_pct) :=
              le_mul_of_one_le_right (le_of_lt hcpos) (by linarith)
          _ = p.entry_price := hentry.symm
      · rw [windowLowMin_of_empty _ _ _ hc]
        exact le_of_lt hE
    constructor
    · intro q hq
      exact hok.1 q (List.mem_of_mem_eraseP hq)
    · intro t ht
      rcases List.mem_append.mp ht with ht | ht
      · exact hok.2 t ht
      · rw [List.mem_singleton] at ht
        subst ht
        refine ⟨?_, hpeak⟩
        exact div_nonpos_of_nonpos_of_nonneg (sub_nonpos.mpr hmin) (le_of_lt hE)

/-- Every engine action preserves the C8 run invariant. -/
theorem StOk_applyEv (cfg : Config) (data : String → List Bar) (st : BState) (ev : Ev)
    (hok : StOk cfg data st) (hdata : DataOk data) (hslip : 0 ≤ cfg.slippage_pct)
    (hv : evPriceFromData data ev = true) :
    StOk cfg data (applyEv cfg data st ev) := by
  cases ev with
  | openEv s d price => exact StOk_open cfg data st s d price hok hdata hv
  | peakEv s price d =>
    simp only [applyEv]
    constructor
    · intro q hq
      rw [List.mem_map] at hq
      obtain ⟨q0, hq0, rfl⟩ := hq
      have h0 := hok.1 q0 hq0
      by_cases hs : (q0.symbol == s) = true
      · simp only [hs, if_true, Position.update_peak]
        split_ifs with hgt
        · exact ⟨le_trans h0.1 (le_of_lt hgt), h0.2.1, h0.2.2.1, h0.2.2.2⟩
        · exact h0
      · simp only [hs, if_false]
        exact h0
    · exact hok.2
  | closeEv s i ed => exact StOk_close cfg data st s i ed hok hslip
  | dailyEv d =>
    simp only [applyEv, checkDailyLossLimit]
    split_ifs <;> exact hok
  | weeklyEv w =>
    simp only [applyEv, checkWeeklyLossLimit]
    split_ifs <;> exact hok

/-- C8: over any run on price data satisfying the provider contract
(`low ≤ close` and positive prices on every row) with nonnegative
slippage, where every open uses the close of the bar at its entry date,
every recorded trade has `max_adverse_excursion ≤ 0` and
`peak_price ≥ entry_price` (the peak starts at the post-slippage entry
price and is only ever increased). -/
theorem mae_nonpos_peak_ge_entry (cfg : Config) (data : String → List Bar) (evs : List Ev)
    (hslip : 0 ≤ cfg.slippage_pct) (hdata : DataOk data)
    (hv : evs.all (evPriceFromData data) = true) :
    ∀ t ∈ (runEvents cfg data evs).trades,
      t.max_adverse_excursion ≤ 0 ∧ t.entry_price ≤ t.peak_price := by
  have main : ∀ (l : List Ev) (st : BState), l.all (evPriceFromData data) = true →
      StOk cfg data st → StOk cfg data (l.foldl (applyEv cfg data) st) := by
    intro l
    induction l with
    | nil => intro st _ hok; exact hok
    | cons e es ih =>
      intro st hall hok
      rw [List.all_cons, Bool.and_eq_true] at hall
      rw [List.foldl_cons]
      exact ih _ hall.2 (StOk_applyEv cfg data st e hok hdata hslip hall.1)
  have h0 : StOk cfg data (initState cfg) := by
    constructor <;> simp [initState]
  exact (main evs (initState cfg) hv h0).2

/-- Fallback trade record used to state closed witnesses. -/
def dummyTrade : Trade :=
  { symbol := "", entry_date := 0, entry_price := 0, exit_date := 0, exit_price := 0
    position_size_usd := 0, num_contracts := 0, return_pct := 0, return_usd := 0
    holding_days := 0, exit_reason := "", peak_price := 0, max_adverse_excursion := 0 }

/-- C8 witness: the single trade of the concrete open-then-close run has
nonpositive maximum adverse excursion and peak at least entry. -/
theorem mae_nonpos_peak_ge_entry_witness :
    ((runEvents cfgC (fun _ => dfC) evsC).trades.getLast?.getD dummyTrade).max_adverse_excursion
      ≤ 0 ∧
    ((runEvents cfgC (fun _ => dfC) evsC).trades.getLast?.getD dummyTrade).entry_price
      ≤ ((runEvents cfgC (fun _ => dfC) evsC).trades.getLast?.getD dummyTrade).peak_price := by
  have hdata : DataOk (fun _ => dfC) := by
    intro s b hb
    simp only [dfC, List.mem_singleton] at hb
    subst hb
    norm_num [barC]
  have hv : evsC.all (evPriceFromData (fun _ => dfC)) = true := by
    norm_num [evsC, evPriceFromData, findBarIdx?, dfC, barC, List.findIdx?]
  have hmem : (runEvents cfgC (fun _ => dfC) evsC).trades.getLast?.getD dummyTrade
      ∈ (runEvents cfgC (fun _ => dfC) evsC).trades := by
    norm_num [runEvents, evsC, applyEv, openPosition, closePosition, calculate_position_size,
      findBarIdx?, List.findIdx?, initState, cfgC, dfC, barC, edC, List.find?, List.eraseP,
      windowLowMin]
  exact mae_nonpos_peak_ge_entry cfgC (fun _ => dfC) evsC (by norm_num [cfgC]) hdata hv _ hmem

end Momentum
